import Mathlib

/-!
Verification of the tree-traversal and rendering core of `list-tree`
(`tree/main.py`), against its natural-language specification.

The Python module is embedded shallowly:

* the process-wide flag globals (`MAX_DEPTH`, `LIST_ALL`, `IGNORE_BACKUPS`,
  `NO_RECUR`, `CLASSIFY`, `RESPECT_GITIGNORE`, `HUMAN_READABLE`) become the
  fields of an explicit `Config` value threaded through every function;
* the filesystem is a finite tree `FSNode`; an entry that is neither a
  regular file nor a directory (socket, fifo, dangling symlink, ...) is an
  `FSNode.other` node, and a directory whose `os.listdir` raises
  `PermissionError` is a `dir` node with `readable = false`;
* the generator `print_tree` becomes a function returning the list of all
  yielded `File` records.  `raise StopIteration` inside the generator body is
  the module's idiom for "end this generator now" (the semantics of the
  Python versions the module targets, and the behaviour its docstring
  describes), so it is modelled as returning the records yielded so far;
* the `git check-ignore` subprocess behind `file_ignored` (which swallows
  every failure and fails open) is an abstract oracle `String → Bool` in the
  configuration;
* the mutable `bcolors` class (whose fields `no_col` blanks out) becomes a
  `bcolors` value carried by the configuration, with the two states the
  source can produce: `bcolors.ansi` and `bcolors.nocol`;
* `struct_prettifier`, a coroutine holding the mutable list `open_folds`,
  becomes the state-passing step function `prettify_step`;
* CPython floats in the human-readable size branch are modelled by exact
  rational arithmetic rounded half-to-even, and `time.gmtime` by the
  standard proleptic-Gregorian civil-from-days computation.
-/

namespace ListTree

-- `class Symbols` from the source: the glyphs of the tree rendering.
namespace Symbols

def CROSS : String := "+"

def VLINE : String := "|"

def VLINER : String := "|"

def HLINE : String := "-"

end Symbols

/-- `class bcolors`: the ANSI escape sequences used for colouring.  The
source mutates the class fields to `''` when `--color=never`; here the two
reachable states are the two values `bcolors.ansi` and `bcolors.nocol`. -/
structure bcolors where
  HEADER : String
  CYAN : String
  BLUE : String
  GREEN : String
  WARNING : String
  FAIL : String
  ENDC : String
  BOLD : String
  UNDERLINE : String
deriving DecidableEq

/-- The escape sequences as initialised in the source. -/
def bcolors.ansi : bcolors :=
  ⟨"\x1b[95m", "\x1b[36m", "\x1b[94m", "\x1b[92m", "\x1b[93m", "\x1b[91m",
   "\x1b[0m", "\x1b[1m", "\x1b[4m"⟩

/-- The state after `bcolors.no_col()` (`--color=never`). -/
def bcolors.nocol : bcolors :=
  ⟨"", "", "", "", "", "", "", "", ""⟩

/-- The `Attributes` namedtuple returned by `get_attributes` (an `os.stat`
wrapper).  `last_modified` is the mtime in whole seconds since the epoch. -/
structure Attributes where
  size : Nat
  executable : Bool
  file_mode : String
  islink : Bool
  ispipe : Bool
  isdoor : Bool
  issock : Bool
  hlink_count : Nat
  user_id : Nat
  group_id : Nat
  last_modified : Nat
deriving DecidableEq

/-- A filesystem subtree.  `file` is an entry with `os.path.isfile` true,
`dir` one with `os.path.isdir` true (with `readable = false` when
`os.listdir` on it raises `PermissionError`), and `other` an entry for which
both predicates are false (socket, fifo, dangling symlink, door).  Children
are kept in `os.listdir` enumeration order. -/
inductive FSNode where
  | file : String → Attributes → FSNode
  | other : String → Attributes → FSNode
  | dir : String → Attributes → Bool → List FSNode → FSNode

def FSNode.name : FSNode → String
  | .file n _ => n
  | .other n _ => n
  | .dir n _ _ _ => n

def FSNode.attrs : FSNode → Attributes
  | .file _ a => a
  | .other _ a => a
  | .dir _ a _ _ => a

/-- `os.path.isdir` on an enumerated entry. -/
def FSNode.isdir : FSNode → Bool
  | .dir _ _ _ _ => true
  | _ => false

/-- `os.path.isfile` on an enumerated entry. -/
def FSNode.isfile : FSNode → Bool
  | .file _ _ => true
  | _ => false

/-- The process-wide configuration globals set up by `_main`, plus the two
process-wide collaborators folded into values: the colour palette and the
`git check-ignore` oracle behind `file_ignored` (already fail-open: every
subprocess failure yields `false` in the source). -/
structure Config where
  MAX_DEPTH : Nat
  LIST_ALL : Nat
  IGNORE_BACKUPS : Bool
  NO_RECUR : Bool
  CLASSIFY : Bool
  RESPECT_GITIGNORE : Bool
  HUMAN_READABLE : Bool
  colors : bcolors
  oracle : String → Bool

/-- `os.path.basename`: the part of a path after the final slash. -/
def basename (p : String) : String :=
  String.mk (p.data.foldl (fun acc c => if c = '/' then [] else acc ++ [c]) [])

/-- `get_print_string_file(path)`: colour- and classify-decorated name of a
file entry. -/
def get_print_string_file (cfg : Config) (path : String) (attr : Attributes) : String :=
  let f := basename path
  let col := ""
  let x := ""
  let (col, x) := if attr.executable then (cfg.colors.BOLD ++ cfg.colors.GREEN, x ++ "*") else (col, x)
  let (col, x) := if attr.islink then (cfg.colors.BOLD ++ cfg.colors.CYAN, x ++ "@") else (col, x)
  let x := if attr.isdoor then x ++ ">" else x
  let x := if attr.issock then x ++ "=" else x
  let x := if attr.ispipe then x ++ "|" else x
  let s := col ++ f ++ cfg.colors.ENDC
  if cfg.CLASSIFY then s ++ x ++ cfg.colors.ENDC else s

/-- `get_print_string_dir(path)`: colour- and classify-decorated name of a
directory entry. -/
def get_print_string_dir (cfg : Config) (path : String) (attr : Attributes) : String :=
  let d := basename path
  let x := ""
  let col := cfg.colors.BOLD ++ cfg.colors.BLUE
  let (col, x) := if attr.islink then (cfg.colors.BOLD ++ cfg.colors.CYAN, x ++ "@") else (col, x)
  let x := if attr.isdoor then x ++ ">" else x
  let x := if attr.issock then x ++ "=" else x
  let x := if attr.ispipe then x ++ "|" else x
  let x := if x = "" then x ++ "/" else x
  let s := col ++ d ++ cfg.colors.ENDC
  if cfg.CLASSIFY then s ++ x else s

/-- The `File` namedtuple: one display record yielded by `print_tree`. -/
structure File where
  name : String
  depth : Nat
  directory : Bool
  permission_failure : Bool
  path : String
deriving DecidableEq

/-- The guard sequence of the `for f in l` loop of `print_tree`: an entry
name survives unless it is a dotfile while `LIST_ALL` is 0, a `~` backup
while `IGNORE_BACKUPS` is set, or `RESPECT_GITIGNORE` is set and
`file_ignored(wd + '/' + f)` reports it ignored. -/
def keptName (cfg : Config) (wd : String) (f : String) : Bool :=
  if ".".data.isPrefixOf f.data ∧ cfg.LIST_ALL = 0 then false
  else if "~".data.isSuffixOf f.data ∧ cfg.IGNORE_BACKUPS then false
  else if cfg.RESPECT_GITIGNORE ∧ cfg.oracle (wd ++ "/" ++ f) = true then false
  else true

/-- The classification phase of the `for f in l` loop: the surviving entries
are split into the `files` and `dirs` lists (both in enumeration order);
entries that are neither `isdir` nor `isfile` fall through and land in
neither list. -/
def collect (cfg : Config) (wd : String) : List FSNode → List FSNode × List FSNode
  | [] => ([], [])
  | c :: rest =>
    let p := collect cfg wd rest
    if keptName cfg wd c.name then
      if c.isdir then (p.1, c :: p.2)
      else if c.isfile then (c :: p.1, p.2)
      else p
    else p

mutual

/-- The generator `print_tree(wd, depth)` as the list of records it yields.
The three `raise StopIteration` sites (depth ceiling, no-recurse below the
root, and the `PermissionError` handler) end the generator, i.e. return the
records yielded so far.  `print_subdirs` is the fused form of building the
`dirs` list and then running `for d in dirs: yield from print_tree(d,
depth+1)`; the lemma `print_subdirs_eq_bind` below recovers the two-phase
reading. -/
def print_tree (cfg : Config) (node : FSNode) (wd : String) (depth : Nat) : List File :=
  match node with
  | .file _ _ => []
  | .other _ _ => []
  | .dir _ attr readable children =>
    let s := get_print_string_dir cfg wd attr
    if depth = cfg.MAX_DEPTH then []
    else if cfg.NO_RECUR ∧ 0 < depth then []
    else if readable = false then [⟨s, depth, true, true, wd⟩]
    else
      let fd := collect cfg wd children
      ⟨s, depth, true, false, wd⟩ ::
        ((if cfg.LIST_ALL = 2 then
            [⟨".", depth + 1, true, false, wd⟩, ⟨"..", depth + 1, true, false, wd⟩]
          else []) ++
         fd.1.map (fun c =>
           ⟨get_print_string_file cfg (wd ++ "/" ++ c.name) c.attrs, depth + 1, false, false,
            wd ++ "/" ++ c.name⟩) ++
         print_subdirs cfg children wd (depth + 1) ++
         (if fd.2.isEmpty ∧ fd.1.isEmpty ∧ cfg.LIST_ALL = 0 then
            [⟨"..", depth + 1, true, false, wd⟩]
          else []))
termination_by structural node

/-- The subtree records contributed by the surviving subdirectory children,
in enumeration order. -/
def print_subdirs (cfg : Config) (l : List FSNode) (wd : String) (depth : Nat) : List File :=
  match l with
  | [] => []
  | c :: rest =>
    (if keptName cfg wd c.name ∧ c.isdir then print_tree cfg c (wd ++ "/" ++ c.name) depth
     else []) ++
    print_subdirs cfg rest wd depth
termination_by structural l

end

/-- The `indent` accumulated by the `for i, x in enumerate(open_folds)` loop
of `struct_prettifier`, as a function of the number of open folds (the loop
never reads the fold values): every column is two blanks and a vertical
rule, except the innermost, whose rule becomes a cross when the incoming
record is a directory. -/
def indent_of (directory : Bool) : Nat → String
  | 0 => ""
  | 1 => "  " ++ (if directory then Symbols.CROSS else Symbols.VLINE)
  | n + 2 => "  " ++ Symbols.VLINE ++ indent_of directory (n + 1)

/-- The `while open_folds` loop popping folds from the end while
`struct.depth < open_folds[-1]`, phrased on the reversed list (whose head is
the end of the Python list). -/
def drop_folds_rev (depth : Nat) : List Nat → List Nat
  | [] => []
  | x :: rest => if depth < x then drop_folds_rev depth rest else x :: rest

def drop_folds (depth : Nat) (l : List Nat) : List Nat :=
  (drop_folds_rev depth l.reverse).reverse

/-- The `if struct.directory` block of `struct_prettifier`: open a fold at
`struct.depth + 1` unless the innermost open fold is already at
`struct.depth - 1`.  The comparison is carried out over `Int` because the
Python left-hand side `struct.depth - 1` is `-1` for a depth-0 record. -/
def push_fold (struct : File) (l : List Nat) : List Nat :=
  if struct.directory then
    match l.getLast? with
    | none => l ++ [struct.depth + 1]
    | some last => if (last : Int) ≠ (struct.depth : Int) - 1 then l ++ [struct.depth + 1] else l
  else l

/-- One resumption of the `struct_prettifier` coroutine: from the incoming
record and the current `open_folds`, the emitted line and the updated
`open_folds`.  The indent is built from the folds as they stand on entry;
the pop loop and the push run afterwards. -/
def prettify_step (cfg : Config) (struct : File) (open_folds : List Nat) : String × List Nat :=
  let indent := indent_of struct.directory open_folds.length
  let folds := push_fold struct (drop_folds struct.depth open_folds)
  let s := indent ++ Symbols.HLINE ++ Symbols.HLINE ++ " " ++ struct.name
  let s := if struct.permission_failure then
      s ++ " " ++ cfg.colors.BOLD ++ cfg.colors.FAIL ++ "[PermissionDenied]" ++ cfg.colors.ENDC
    else s
  (s, folds)

/-- The consumer loop of `_main` (and of `print_long_list_fmt`): feed every
record of the walk through one `struct_prettifier` instance, starting from
the empty `open_folds`. -/
def prettify_lines (cfg : Config) : List File → List Nat → List String
  | [], _ => []
  | st :: rest, folds =>
    let p := prettify_step cfg st folds
    p.1 :: prettify_lines cfg rest p.2

def split_slash_aux : List Char → List Char → List String
  | [], acc => [String.mk acc.reverse]
  | c :: rest, acc =>
    if c = '/' then String.mk acc.reverse :: split_slash_aux rest []
    else split_slash_aux rest (c :: acc)

/-- A path split at slashes. -/
def split_slash (s : String) : List String := split_slash_aux s.data []

/-- The walk builds every record path as `root`, or `root ++ "/" ++`
slash-separated child names; `path_segs` recovers the child-name segments,
refusing paths outside the mounted subtree. -/
def path_segs (root p : String) : Option (List String) :=
  if p = root then some []
  else if (root ++ "/").data.isPrefixOf p.data then
    some (split_slash (String.mk (p.data.drop (root.data.length + 1))))
  else none

/-- Resolution of a segment list against the modelled filesystem, one
`os.listdir` name lookup per segment. -/
def find_node (node : FSNode) (segs : List String) : Option FSNode :=
  match segs with
  | [] => some node
  | seg :: rest =>
    match node with
    | .dir _ _ _ ch => (ch.find? (fun c => c.name == seg)).bind (fun c => find_node c rest)
    | _ => none

/-- `get_attributes(p)` (an `os.stat` wrapper) resolved against the modelled
filesystem `fs` mounted at path `root`; `none` models the `OSError` of a
path that does not resolve. -/
def get_attributes (fs : FSNode) (root p : String) : Option Attributes :=
  (path_segs root p).bind (fun segs => (find_node fs segs).map FSNode.attrs)

/-- Python `str.ljust`: pad on the right with blanks up to the given width. -/
def ljust (s : String) (w : Nat) : String :=
  s ++ String.mk (List.replicate (w - s.data.length) ' ')

def digit_char : Nat → Char
  | 0 => '0'
  | 1 => '1'
  | 2 => '2'
  | 3 => '3'
  | 4 => '4'
  | 5 => '5'
  | 6 => '6'
  | 7 => '7'
  | 8 => '8'
  | _ => '9'

def nat_str_go (fuel n : Nat) (acc : List Char) : List Char :=
  match fuel with
  | 0 => acc
  | f + 1 =>
    if n < 10 then digit_char n :: acc
    else nat_str_go f (n / 10) (digit_char (n % 10) :: acc)

/-- Python `str` on a non-negative integer. -/
def nat_str (n : Nat) : String := String.mk (nat_str_go (n + 1) n [])

def num_digits (n : Nat) : Nat := (nat_str n).data.length

/-- `round(math.log(size, 10))` for `size ≥ 1`, computed exactly over the
reals: the rounding of `log₁₀ n` is `d - 1` (where `d` counts the decimal
digits of `n`) exactly when `log₁₀ n < d - 1/2`, i.e. when `n² < 10^(2d-1)`;
a tie is impossible because `√10` is irrational.  (CPython evaluates the
logarithm in floating point, which agrees except possibly within an ulp of
the branch cuts.) -/
def round_log10 (n : Nat) : Nat :=
  let d := num_digits n
  if n * n < 10 ^ (2 * d - 1) then d - 1 else d

/-- Python `'%.1f' % (num / den)`, modelled as the exact rational rounded to
one decimal place, ties to even. -/
def fmt1dec (num den : Nat) : String :=
  let q := 10 * num / den
  let r := 10 * num % den
  let t :=
    if den < 2 * r then q + 1
    else if 2 * r < den then q
    else if q % 2 = 0 then q else q + 1
  nat_str (t / 10) ++ "." ++ nat_str (t % 10)

/-- The size column of `print_long_list_fmt`: the raw byte count with a `B`
suffix, or, under `--human-readable`, a unit chosen by the rounded decimal
order of magnitude (`st_size` is non-negative, so `size <= 0` means 0). -/
def size_str (cfg : Config) (size : Nat) : String :=
  if cfg.HUMAN_READABLE = false then nat_str size ++ "B"
  else if size = 0 then "0B"
  else
    let lg := round_log10 size
    if lg < 3 then nat_str size ++ "B"
    else if lg < 6 then fmt1dec size 1024 ++ "KB"
    else if lg < 9 then fmt1dec size (1024 ^ 2) ++ "MB"
    else fmt1dec size (1024 ^ 3) ++ "GB"

def month_abbrev : Nat → String
  | 1 => "Jan"
  | 2 => "Feb"
  | 3 => "Mar"
  | 4 => "Apr"
  | 5 => "May"
  | 6 => "Jun"
  | 7 => "Jul"
  | 8 => "Aug"
  | 9 => "Sep"
  | 10 => "Oct"
  | 11 => "Nov"
  | _ => "Dec"

def pad2 (n : Nat) : String := if n < 10 then "0" ++ nat_str n else nat_str n

/-- Civil date from days since 1970-01-01 (proleptic Gregorian): the
arithmetic underlying `time.gmtime` for non-negative timestamps. -/
def civil_from_days (days : Nat) : Nat × Nat × Nat :=
  let z := days + 719468
  let era := z / 146097
  let doe := z % 146097
  let yoe := (doe - doe / 1460 + doe / 36524 - doe / 146096) / 365
  let y := yoe + era * 400
  let doy := doe - (365 * yoe + yoe / 4 - yoe / 100)
  let mp := (5 * doy + 2) / 153
  let d := doy - (153 * mp + 2) / 5 + 1
  let m := if mp < 10 then mp + 3 else mp - 9
  (if m ≤ 2 then y + 1 else y, m, d)

/-- `time.strftime('%b %d %Y %H:%M', time.gmtime(t))`. -/
def strf_time (t : Nat) : String :=
  let days := t / 86400
  let secs := t % 86400
  let ymd := civil_from_days days
  month_abbrev ymd.2.1 ++ " " ++ pad2 ymd.2.2 ++ " " ++ nat_str ymd.1 ++ " " ++
    pad2 (secs / 3600) ++ ":" ++ pad2 (secs % 3600 / 60)

/-- Python `' '.join`. -/
def join_spaces : List String → String
  | [] => ""
  | [s] => s
  | s :: rest => s ++ " " ++ join_spaces rest

/-- One line of `print_long_list_fmt`: the fixed-width metadata columns
computed from `get_attributes(struct.path)`, then the prettified display
string, joined by single blanks. -/
def long_list_line (cfg : Config) (attr : Attributes) (pretty : String) : String :=
  join_spaces
    [ljust attr.file_mode 11, ljust (nat_str attr.hlink_count) 3,
     ljust (nat_str attr.user_id) 5, ljust (nat_str attr.group_id) 5,
     ljust (size_str cfg attr.size) 10, ljust (strf_time attr.last_modified) 15, pretty]

def print_long_list_go (cfg : Config) (fs : FSNode) (root : String) :
    List File → List Nat → Option (List String)
  | [], _ => some []
  | st :: rest, folds =>
    match get_attributes fs root st.path with
    | none => none
    | some attr =>
      let p := prettify_step cfg st folds
      match print_long_list_go cfg fs root rest p.2 with
      | none => none
      | some ls => some (long_list_line cfg attr p.1 :: ls)

/-- `print_long_list_fmt(lines)` over the records of a walk, resolved
against the modelled filesystem `fs` mounted at path `root`.  Every record
is stat-ed at its `path` field and fed through one shared
`struct_prettifier` instance; `none` models the unhandled `os.stat` failure
on a path that does not resolve. -/
def print_long_list_fmt (cfg : Config) (fs : FSNode) (root : String)
    (lines : List File) : Option (List String) :=
  print_long_list_go cfg fs root lines []

mutual

/-- `print_tree` annotated with structural nesting levels, the reference
against which claim C7 compares the `depth` field.  `record_levels` mirrors
`print_tree` step for step, pairing every record with its structural nesting
level in the sense of the specification glossary ("number of directory
levels between the traversal root and a record"): the directory record
carries `lvl`, the records emitted for its children and synthetic rows carry
`lvl + 1`, and each subdirectory subtree is entered at `lvl + 1`.  The
`depth` argument follows the code, the `lvl` argument follows the
structure. -/
def record_levels (cfg : Config) (node : FSNode) (wd : String) (depth lvl : Nat) :
    List (File × Nat) :=
  match node with
  | .file _ _ => []
  | .other _ _ => []
  | .dir _ attr readable children =>
    let s := get_print_string_dir cfg wd attr
    if depth = cfg.MAX_DEPTH then []
    else if cfg.NO_RECUR ∧ 0 < depth then []
    else if readable = false then [(⟨s, depth, true, true, wd⟩, lvl)]
    else
      let fd := collect cfg wd children
      (⟨s, depth, true, false, wd⟩, lvl) ::
        ((if cfg.LIST_ALL = 2 then
            [(⟨".", depth + 1, true, false, wd⟩, lvl + 1),
             (⟨"..", depth + 1, true, false, wd⟩, lvl + 1)]
          else []) ++
         fd.1.map (fun c =>
           (⟨get_print_string_file cfg (wd ++ "/" ++ c.name) c.attrs, depth + 1, false, false,
             wd ++ "/" ++ c.name⟩, lvl + 1)) ++
         record_levels_subdirs cfg children wd (depth + 1) (lvl + 1) ++
         (if fd.2.isEmpty ∧ fd.1.isEmpty ∧ cfg.LIST_ALL = 0 then
            [(⟨"..", depth + 1, true, false, wd⟩, lvl + 1)]
          else []))
termination_by structural node

def record_levels_subdirs (cfg : Config) (l : List FSNode) (wd : String) (depth lvl : Nat) :
    List (File × Nat) :=
  match l with
  | [] => []
  | c :: rest =>
    (if keptName cfg wd c.name ∧ c.isdir then
       record_levels cfg c (wd ++ "/" ++ c.name) depth lvl
     else []) ++
    record_levels_subdirs cfg rest wd depth lvl
termination_by structural l

end

/-! ### Concrete sample filesystems and configurations

The defaults of the CLI with `--color=never`: `MAX_DEPTH = 2`, dotfile
policy Hidden, every other flag off, `git check-ignore` reporting nothing
ignored. -/

def cfgHidden : Config := ⟨2, 0, false, false, false, false, false, bcolors.nocol, fun _ => false⟩

/-- `--max-depth=1`. -/
def cfgDepth1 : Config := ⟨1, 0, false, false, false, false, false, bcolors.nocol, fun _ => false⟩

/-- `--no-recursive --max-depth=5`. -/
def cfgNoRecur : Config := ⟨5, 0, false, true, false, false, false, bcolors.nocol, fun _ => false⟩

/-- `--almost-all` (`LIST_ALL = 1`). -/
def cfgAlmostAll : Config := ⟨2, 1, false, false, false, false, false, bcolors.nocol, fun _ => false⟩

/-- `--all` (`LIST_ALL = 2`). -/
def cfgShowAll : Config := ⟨2, 2, false, false, false, false, false, bcolors.nocol, fun _ => false⟩

/-- Every ignore rule armed: dotfiles hidden, backups ignored, and a
`git check-ignore` oracle that reports every path as ignored. -/
def cfgHostile : Config := ⟨2, 0, true, false, false, true, false, bcolors.nocol, fun _ => true⟩

def dirAttrs : Attributes :=
  ⟨4096, false, "drwxr-xr-x", false, false, false, false, 2, 1000, 1000, 0⟩

def fileAttrs : Attributes :=
  ⟨120, false, "-rw-r--r--", false, false, false, false, 1, 1000, 1000, 86400⟩

def sockAttrs : Attributes :=
  ⟨0, false, "srwxr-xr-x", false, false, false, true, 1, 1000, 1000, 0⟩

/-- `/r` containing a single subdirectory `sub`, which contains file `f`. -/
def fsSub : FSNode := .dir "r" dirAttrs true [.dir "sub" dirAttrs true [.file "f" fileAttrs]]

/-- `/r`, an empty directory. -/
def fsEmpty : FSNode := .dir "r" dirAttrs true []

/-- `/r` with subdirectories `s1` and `s2`, each containing a file `f`. -/
def fsTwoSubs : FSNode :=
  .dir "r" dirAttrs true
    [.dir "s1" dirAttrs true [.file "f" fileAttrs], .dir "s2" dirAttrs true [.file "f" fileAttrs]]

/-- `/r` containing only a socket `sock`. -/
def fsSock : FSNode := .dir "r" dirAttrs true [.other "sock" sockAttrs]

/-- A directory whose enumeration raises `PermissionError`. -/
def fsLocked : FSNode := .dir "locked" dirAttrs false [.file "hidden" fileAttrs]

/-- `/r` whose enumeration lists subdirectory `z` before file `a`. -/
def fsMixed : FSNode :=
  .dir "r" dirAttrs true [.dir "z" dirAttrs true [], .file "a" fileAttrs]

/-! ### Structural lemmas about the walker -/

/-- The single classification loop of `print_tree` builds exactly the
enumeration-order sublist of surviving regular files and the
enumeration-order sublist of surviving directories. -/
theorem collect_eq_filter (cfg : Config) (wd : String) (l : List FSNode) :
    collect cfg wd l =
      (l.filter (fun c => keptName cfg wd c.name && c.isfile),
       l.filter (fun c => keptName cfg wd c.name && c.isdir)) := by
  induction l with
  | nil => rfl
  | cons c rest ih =>
    rcases hk : keptName cfg wd c.name with _ | _ <;>
      cases c <;>
        simp_all [collect, List.filter_cons, FSNode.isdir, FSNode.isfile, FSNode.name]

/-- `print_subdirs` is the `for d in dirs: yield from print_tree(d, depth+1)`
loop: the concatenation of the subtree walks of the surviving directory
children, in enumeration order. -/
theorem print_subdirs_eq_bind (cfg : Config) (l : List FSNode) (wd : String) (d : Nat) :
    print_subdirs cfg l wd d =
      (l.filter (fun c => keptName cfg wd c.name && c.isdir)).flatMap
        (fun c => print_tree cfg c (wd ++ "/" ++ c.name) d) := by
  induction l with
  | nil => rfl
  | cons c rest ih =>
    rw [print_subdirs]
    rcases hk : keptName cfg wd c.name with _ | _ <;>
      rcases hd : c.isdir with _ | _ <;>
        simp [List.filter_cons, hk, hd, ih]

/-- The walk of a directory that passes the depth-ceiling and no-recurse
checks, with the classification phase written out as filters. -/
theorem print_tree_dir_eq (cfg : Config) (n : String) (a : Attributes) (rdable : Bool)
    (ch : List FSNode) (wd : String) (d : Nat) (h1 : d ≠ cfg.MAX_DEPTH)
    (h2 : ¬(cfg.NO_RECUR = true ∧ 0 < d)) :
    print_tree cfg (.dir n a rdable ch) wd d =
      if rdable = false then [⟨get_print_string_dir cfg wd a, d, true, true, wd⟩]
      else
        ⟨get_print_string_dir cfg wd a, d, true, false, wd⟩ ::
          ((if cfg.LIST_ALL = 2 then
              [⟨".", d + 1, true, false, wd⟩, ⟨"..", d + 1, true, false, wd⟩]
            else []) ++
           (ch.filter (fun c => keptName cfg wd c.name && c.isfile)).map (fun c =>
             ⟨get_print_string_file cfg (wd ++ "/" ++ c.name) c.attrs, d + 1, false, false,
              wd ++ "/" ++ c.name⟩) ++
           (ch.filter (fun c => keptName cfg wd c.name && c.isdir)).flatMap
             (fun c => print_tree cfg c (wd ++ "/" ++ c.name) (d + 1)) ++
           (if (ch.filter (fun c => keptName cfg wd c.name && c.isdir)).isEmpty ∧
               (ch.filter (fun c => keptName cfg wd c.name && c.isfile)).isEmpty ∧
               cfg.LIST_ALL = 0 then
              [⟨"..", d + 1, true, false, wd⟩]
            else [])) := by
  rw [print_tree]
  rw [if_neg h1, if_neg h2]
  cases rdable with
  | false => simp
  | true =>
    simp only [Bool.true_eq_false, if_false, collect_eq_filter, print_subdirs_eq_bind,
      List.bind_eq_flatMap]

/-- Any subtree entered with the no-recurse flag at positive depth
contributes no records: the generator stops before its first yield. -/
theorem print_tree_norecur (cfg : Config) (node : FSNode) (wd : String) (d : Nat)
    (hR : cfg.NO_RECUR = true) (hd : 0 < d) : print_tree cfg node wd d = [] := by
  cases node with
  | file n a => rfl
  | other n a => rfl
  | dir n a rdable ch =>
    rw [print_tree]
    by_cases h1 : d = cfg.MAX_DEPTH
    · rw [if_pos h1]
    · rw [if_neg h1, if_pos ⟨hR, hd⟩]

/-- With no-recurse set, the whole subdirectory loop at positive depth is
silent. -/
theorem print_subdirs_norecur (cfg : Config) (l : List FSNode) (wd : String) (d : Nat)
    (hR : cfg.NO_RECUR = true) (hd : 0 < d) : print_subdirs cfg l wd d = [] := by
  induction l with
  | nil => rfl
  | cons c rest ih =>
    rw [print_subdirs, ih, print_tree_norecur cfg c _ d hR hd]
    simp

/-- A directory reached exactly at the depth ceiling contributes no records:
the generator stops before its first yield. -/
theorem print_tree_at_max_depth (cfg : Config) (node : FSNode) (wd : String) :
    print_tree cfg node wd cfg.MAX_DEPTH = [] := by
  cases node with
  | file n a => rfl
  | other n a => rfl
  | dir n a rdable ch => rw [print_tree, if_pos rfl]

/-- Every record of a subtree entered at a depth within the ceiling has its
depth field within the ceiling. -/
theorem depth_le_print_tree (cfg : Config) (node : FSNode) (wd : String) (d : Nat)
    (hd : d ≤ cfg.MAX_DEPTH) :
    ∀ r ∈ print_tree cfg node wd d, r.depth ≤ cfg.MAX_DEPTH := by
  cases node with
  | file n a => intro r hr; rw [print_tree] at hr; exact absurd hr (List.not_mem_nil r)
  | other n a => intro r hr; rw [print_tree] at hr; exact absurd hr (List.not_mem_nil r)
  | dir n a rdable ch =>
    intro r hr
    by_cases h1 : d = cfg.MAX_DEPTH
    · rw [h1, print_tree_at_max_depth] at hr
      exact absurd hr (List.not_mem_nil r)
    by_cases h2 : cfg.NO_RECUR = true ∧ 0 < d
    · rw [print_tree_norecur cfg _ wd d h2.1 h2.2] at hr
      exact absurd hr (List.not_mem_nil r)
    rw [print_tree_dir_eq cfg n a rdable ch wd d h1 h2] at hr
    have hd1 : d + 1 ≤ cfg.MAX_DEPTH := by omega
    cases rdable with
    | false =>
      simp only [if_pos rfl] at hr
      rcases List.mem_singleton.mp hr with rfl
      exact hd
    | true =>
      simp only [Bool.true_eq_false, if_false] at hr
      rcases List.mem_cons.mp hr with rfl | hr2
      · exact hd
      rcases List.mem_append.mp hr2 with hr3 | hplace
      rotate_left
      · split at hplace
        · rcases List.mem_singleton.mp hplace with rfl; exact hd1
        · exact absurd hplace (List.not_mem_nil r)
      rcases List.mem_append.mp hr3 with hr4 | hsub
      rotate_left
      · rcases List.mem_flatMap.mp hsub with ⟨c, hc, hrc⟩
        exact depth_le_print_tree cfg c (wd ++ "/" ++ c.name) (d + 1) hd1 r hrc
      rcases List.mem_append.mp hr4 with hsynth | hfile
      · split at hsynth
        · rcases List.mem_cons.mp hsynth with rfl | h5
          · exact hd1
          · rcases List.mem_singleton.mp h5 with rfl; exact hd1
        · exact absurd hsynth (List.not_mem_nil r)
      · rcases List.mem_map.mp hfile with ⟨c, hc, rfl⟩
        exact hd1
termination_by sizeOf node
decreasing_by
  simp only [FSNode.dir.sizeOf_spec]
  have h6 := List.sizeOf_lt_of_mem (List.mem_of_mem_filter hc)
  omega

/-- The subdirectory-loop form of `depth_le_print_tree`. -/
theorem depth_le_print_subdirs (cfg : Config) (l : List FSNode) (wd : String) (d : Nat)
    (hd : d ≤ cfg.MAX_DEPTH) :
    ∀ r ∈ print_subdirs cfg l wd d, r.depth ≤ cfg.MAX_DEPTH := by
  rw [print_subdirs_eq_bind]
  intro r hr
  rcases List.mem_flatMap.mp hr with ⟨c, hc, hrc⟩
  exact depth_le_print_tree cfg c (wd ++ "/" ++ c.name) d hd r hrc

mutual

/-- Forgetting the level annotations of `record_levels` recovers the walk
itself: the annotation is of the real record sequence. -/
theorem record_levels_map_fst (cfg : Config) (node : FSNode) (wd : String) (d lvl : Nat) :
    (record_levels cfg node wd d lvl).map Prod.fst = print_tree cfg node wd d := by
  cases node with
  | file n a => rfl
  | other n a => rfl
  | dir n a rdable ch =>
    rw [record_levels, print_tree]
    by_cases h1 : d = cfg.MAX_DEPTH
    · rw [if_pos h1, if_pos h1]; rfl
    rw [if_neg h1, if_neg h1]
    by_cases h2 : cfg.NO_RECUR = true ∧ 0 < d
    · rw [if_pos h2, if_pos h2]; rfl
    rw [if_neg h2, if_neg h2]
    cases rdable with
    | false => rfl
    | true =>
      have hrec := record_levels_subdirs_map_fst cfg ch wd (d + 1) (lvl + 1)
      simp only [Bool.true_eq_false, if_false, List.map_cons, List.map_append, List.map_map,
        apply_ite (List.map (@Prod.fst File Nat)), List.map_nil, Function.comp, hrec]
      rfl
termination_by sizeOf node

theorem record_levels_subdirs_map_fst (cfg : Config) (l : List FSNode) (wd : String)
    (d lvl : Nat) :
    (record_levels_subdirs cfg l wd d lvl).map Prod.fst = print_subdirs cfg l wd d := by
  cases l with
  | nil => rfl
  | cons c rest =>
    rw [record_levels_subdirs, print_subdirs, List.map_append,
      record_levels_subdirs_map_fst cfg rest wd d lvl]
    by_cases hg : keptName cfg wd c.name = true ∧ c.isdir = true
    · rw [if_pos hg, if_pos hg, record_levels_map_fst cfg c (wd ++ "/" ++ c.name) d lvl]
    · rw [if_neg hg, if_neg hg]; rfl
termination_by sizeOf l

end

mutual

/-- In an annotated walk entered with code depth `d` and structural level
`lvl`, every record's depth field and structural level differ by the same
offset: the code increments its `depth` argument exactly where the
structure deepens. -/
theorem depth_lvl_record_levels (cfg : Config) (node : FSNode) (wd : String) (d lvl : Nat) :
    ∀ p ∈ record_levels cfg node wd d lvl, p.1.depth + lvl = p.2 + d := by
  cases node with
  | file n a => intro p hp; rw [record_levels] at hp; exact absurd hp (List.not_mem_nil p)
  | other n a => intro p hp; rw [record_levels] at hp; exact absurd hp (List.not_mem_nil p)
  | dir n a rdable ch =>
    intro p hp
    rw [record_levels] at hp
    by_cases h1 : d = cfg.MAX_DEPTH
    · rw [if_pos h1] at hp; exact absurd hp (List.not_mem_nil p)
    rw [if_neg h1] at hp
    by_cases h2 : cfg.NO_RECUR = true ∧ 0 < d
    · rw [if_pos h2] at hp; exact absurd hp (List.not_mem_nil p)
    rw [if_neg h2] at hp
    cases rdable with
    | false =>
      simp only [if_pos rfl] at hp
      rcases List.mem_singleton.mp hp with rfl
      exact Nat.add_comm d lvl
    | true =>
      simp only [Bool.true_eq_false, if_false] at hp
      rcases List.mem_cons.mp hp with rfl | hp2
      · exact Nat.add_comm d lvl
      rcases List.mem_append.mp hp2 with hp3 | hplace
      rotate_left
      · split at hplace
        · rcases List.mem_singleton.mp hplace with rfl
          show d + 1 + lvl = lvl + 1 + d
          omega
        · exact absurd hplace (List.not_mem_nil p)
      rcases List.mem_append.mp hp3 with hp4 | hsub
      rotate_left
      · have h5 := depth_lvl_record_levels_subdirs cfg ch wd (d + 1) (lvl + 1) p hsub
        omega
      rcases List.mem_append.mp hp4 with hsynth | hfile
      · split at hsynth
        · rcases List.mem_cons.mp hsynth with rfl | h5
          · show d + 1 + lvl = lvl + 1 + d
            omega
          · rcases List.mem_singleton.mp h5 with rfl
            show d + 1 + lvl = lvl + 1 + d
            omega
        · exact absurd hsynth (List.not_mem_nil p)
      · rcases List.mem_map.mp hfile with ⟨c, hc, rfl⟩
        show d + 1 + lvl = lvl + 1 + d
        omega
termination_by sizeOf node

theorem depth_lvl_record_levels_subdirs (cfg : Config) (l : List FSNode) (wd : String)
    (d lvl : Nat) :
    ∀ p ∈ record_levels_subdirs cfg l wd d lvl, p.1.depth + lvl = p.2 + d := by
  cases l with
  | nil => intro p hp; rw [record_levels_subdirs] at hp; exact absurd hp (List.not_mem_nil p)
  | cons c rest =>
    intro p hp
    rw [record_levels_subdirs] at hp
    rcases List.mem_append.mp hp with hg | hrest
    · split at hg
      · exact depth_lvl_record_levels cfg c (wd ++ "/" ++ c.name) d lvl p hg
      · exact absurd hg (List.not_mem_nil p)
    · exact depth_lvl_record_levels_subdirs cfg rest wd d lvl p hrest
termination_by sizeOf l

end

/-! ### The claims -/

/-- C1, refuted as stated: with `--max-depth=1` on `/r` (which contains the
subdirectory `sub`, which contains a file), `sub` is reached at depth 1 =
max-depth, but — contrary to the claim that "the walker emits that
directory's own record" — the generator stops before its first yield: the
whole output is the root record alone, and no record at all has path
`/r/sub`. -/
theorem claim1_counterexample :
    print_tree cfgDepth1 fsSub "/r" 0 = [⟨"r", 0, true, false, "/r"⟩] ∧
    (print_tree cfgDepth1 fsSub "/r" 0).all (fun r => r.path != "/r/sub") = true := by
  decide

/-- C1 (amended): a directory reached at depth equal to max-depth emits no
records at all — not even its own record — and consequently, for every
configuration with max-depth = N, no record of a walk entered within the
ceiling (in particular of a root walk at depth 0) has depth greater
than N. -/
theorem claim1_max_depth (cfg : Config) :
    (∀ node wd, print_tree cfg node wd cfg.MAX_DEPTH = []) ∧
    (∀ node wd d, d ≤ cfg.MAX_DEPTH →
      ∀ r ∈ print_tree cfg node wd d, r.depth ≤ cfg.MAX_DEPTH) :=
  ⟨fun node wd => print_tree_at_max_depth cfg node wd,
   fun node wd d hd => depth_le_print_tree cfg node wd d hd⟩

theorem claim1_witness :
    ((0 : Nat) ≤ cfgHidden.MAX_DEPTH ∧
      (⟨"f", 2, false, false, "/r/sub/f"⟩ : File) ∈ print_tree cfgHidden fsSub "/r" 0) ∧
    File.depth ⟨"f", 2, false, false, "/r/sub/f"⟩ ≤ cfgHidden.MAX_DEPTH :=
  ⟨⟨by decide, by decide⟩,
   (claim1_max_depth cfgHidden).2 fsSub "/r" 0 (by decide) _ (by decide)⟩

/-- C2, refuted as stated: with `--no-recursive` on `/r` containing the
subdirectory `sub`, the claim says `sub` (depth 1 > 0) yields exactly its
own directory record; in fact it yields nothing at all — the generator
stops before its first yield — so the output is the root record alone and
no record has path `/r/sub`. -/
theorem claim2_counterexample :
    cfgNoRecur.NO_RECUR = true ∧
    print_tree cfgNoRecur fsSub "/r" 0 = [⟨"r", 0, true, false, "/r"⟩] ∧
    (print_tree cfgNoRecur fsSub "/r" 0).all (fun r => r.path != "/r/sub") = true := by
  decide

/-- C2 (amended): when the no-recurse flag is set, every directory entered
at depth greater than 0 contributes no records at all (not even its own
record), so only the root (depth 0) produces records: its own record, the
synthetic rows, its file records, and the empty-directory placeholder —
with no subdirectory subtree records. -/
theorem claim2_norecur (cfg : Config) (hR : cfg.NO_RECUR = true) :
    (∀ node wd d, 0 < d → print_tree cfg node wd d = []) ∧
    (∀ n a ch wd, cfg.MAX_DEPTH ≠ 0 →
      print_tree cfg (.dir n a true ch) wd 0 =
        ⟨get_print_string_dir cfg wd a, 0, true, false, wd⟩ ::
          ((if cfg.LIST_ALL = 2 then
              [⟨".", 1, true, false, wd⟩, ⟨"..", 1, true, false, wd⟩]
            else []) ++
           (ch.filter (fun c => keptName cfg wd c.name && c.isfile)).map (fun c =>
             ⟨get_print_string_file cfg (wd ++ "/" ++ c.name) c.attrs, 1, false, false,
              wd ++ "/" ++ c.name⟩) ++
           (if (ch.filter (fun c => keptName cfg wd c.name && c.isdir)).isEmpty ∧
               (ch.filter (fun c => keptName cfg wd c.name && c.isfile)).isEmpty ∧
               cfg.LIST_ALL = 0 then
              [⟨"..", 1, true, false, wd⟩]
            else []))) := by
  refine ⟨fun node wd d hd => print_tree_norecur cfg node wd d hR hd,
    fun n a ch wd hmax => ?_⟩
  rw [print_tree, if_neg (Ne.symm hmax),
    if_neg (show ¬(cfg.NO_RECUR = true ∧ 0 < 0) by simp)]
  simp only [Bool.true_eq_false, if_false]
  rw [print_subdirs_norecur cfg ch wd (0 + 1) hR (by omega), collect_eq_filter]
  simp

theorem claim2_witness :
    (cfgNoRecur.NO_RECUR = true ∧ (0 : Nat) < 1) ∧
    print_tree cfgNoRecur (.dir "sub" dirAttrs true [.file "f" fileAttrs]) "/r/sub" 1 = [] :=
  ⟨⟨rfl, by decide⟩, (claim2_norecur cfgNoRecur rfl).1 _ "/r/sub" 1 (by decide)⟩

/-- C3: a directory whose child enumeration fails with PermissionDenied
yields exactly one record — its own, with the `permission_failure` flag set
— and zero descendant records; the walk is a total function (no exception
escapes the generator, which ends after the flagged record), and the
enclosing subdirectory loop continues with the remaining siblings. -/
theorem claim3_permission_denied (cfg : Config) (n : String) (a : Attributes)
    (ch : List FSNode) (wd : String) (d : Nat) (h1 : d ≠ cfg.MAX_DEPTH)
    (h2 : ¬(cfg.NO_RECUR = true ∧ 0 < d)) :
    print_tree cfg (.dir n a false ch) wd d =
      [⟨get_print_string_dir cfg wd a, d, true, true, wd⟩] ∧
    ∀ rest, keptName cfg wd n = true →
      print_subdirs cfg (.dir n a false ch :: rest) wd d =
        ⟨get_print_string_dir cfg (wd ++ "/" ++ n) a, d, true, true, wd ++ "/" ++ n⟩ ::
          print_subdirs cfg rest wd d := by
  constructor
  · rw [print_tree_dir_eq cfg n a false ch wd d h1 h2]
    simp
  · intro rest hk
    rw [print_subdirs]
    simp only [FSNode.name, FSNode.isdir]
    rw [if_pos ⟨hk, trivial⟩,
      print_tree_dir_eq cfg n a false ch (wd ++ "/" ++ n) d h1 h2]
    simp

theorem claim3_witness :
    ((0 : Nat) ≠ cfgHidden.MAX_DEPTH ∧ ¬(cfgHidden.NO_RECUR = true ∧ 0 < 0)) ∧
    print_tree cfgHidden fsLocked "/locked" 0 =
      [⟨get_print_string_dir cfgHidden "/locked" dirAttrs, 0, true, true, "/locked"⟩] :=
  ⟨⟨by decide, by decide⟩,
   (claim3_permission_denied cfgHidden "locked" dirAttrs [.file "hidden" fileAttrs]
     "/locked" 0 (by decide) (by decide)).1⟩

/-- C4, refuted as stated: under `--almost-all` (`LIST_ALL = 1`, a dotfile
policy other than ShowAll) the walk of the empty directory `/r` emits no
`..` placeholder at all — the placeholder guard in the source is
`not LIST_ALL`, i.e. it fires only under the Hidden policy, not under every
policy other than ShowAll. -/
theorem claim4_counterexample :
    cfgAlmostAll.LIST_ALL = 1 ∧
    print_tree cfgAlmostAll fsEmpty "/r" 0 = [⟨"r", 0, true, false, "/r"⟩] := by
  decide

/-- C4 (amended): a readable directory whose post-filter file and
subdirectory lists are both empty emits exactly one synthetic `..`
placeholder record at depth + 1 precisely when the dotfile policy is
Hidden (`LIST_ALL = 0`); under the other two policies it emits none. -/
theorem claim4_placeholder (cfg : Config) (n : String) (a : Attributes) (ch : List FSNode)
    (wd : String) (d : Nat) (h1 : d ≠ cfg.MAX_DEPTH) (h2 : ¬(cfg.NO_RECUR = true ∧ 0 < d))
    (hf : ch.filter (fun c => keptName cfg wd c.name && c.isfile) = [])
    (hd : ch.filter (fun c => keptName cfg wd c.name && c.isdir) = []) :
    print_tree cfg (.dir n a true ch) wd d =
      ⟨get_print_string_dir cfg wd a, d, true, false, wd⟩ ::
        ((if cfg.LIST_ALL = 2 then
            [⟨".", d + 1, true, false, wd⟩, ⟨"..", d + 1, true, false, wd⟩]
          else []) ++
         (if cfg.LIST_ALL = 0 then [⟨"..", d + 1, true, false, wd⟩] else [])) := by
  rw [print_tree_dir_eq cfg n a true ch wd d h1 h2, hf, hd]
  simp

theorem claim4_witness :
    (((0 : Nat) ≠ cfgHidden.MAX_DEPTH ∧ ¬(cfgHidden.NO_RECUR = true ∧ 0 < 0)) ∧
      ([] : List FSNode).filter
          (fun c => keptName cfgHidden "/r" c.name && c.isfile) = [] ∧
      ([] : List FSNode).filter
          (fun c => keptName cfgHidden "/r" c.name && c.isdir) = []) ∧
    print_tree cfgHidden (.dir "r" dirAttrs true []) "/r" 0 =
      ⟨get_print_string_dir cfgHidden "/r" dirAttrs, 0, true, false, "/r"⟩ ::
        ((if cfgHidden.LIST_ALL = 2 then
            [⟨".", 0 + 1, true, false, "/r"⟩, ⟨"..", 0 + 1, true, false, "/r"⟩]
          else []) ++
         (if cfgHidden.LIST_ALL = 0 then [⟨"..", 0 + 1, true, false, "/r"⟩] else [])) :=
  ⟨⟨⟨by decide, by decide⟩, rfl, rfl⟩,
   claim4_placeholder cfgHidden "r" dirAttrs [] "/r" 0 (by decide) (by decide) rfl rfl⟩

/-- C9: entries that survive the ignore filter but are neither regular
files nor directories (sockets, fifos, dangling symlinks, ...) produce no
record at all and do not count against the empty-directory check: a
readable directory all of whose children are such entries walks exactly
like an empty one, in particular it still emits the synthetic `..`
placeholder under the Hidden policy. -/
theorem claim9_other_entries (cfg : Config) (n : String) (a : Attributes) (ch : List FSNode)
    (wd : String) (d : Nat) (h1 : d ≠ cfg.MAX_DEPTH) (h2 : ¬(cfg.NO_RECUR = true ∧ 0 < d))
    (hother : ∀ c ∈ ch, c.isfile = false ∧ c.isdir = false) :
    print_tree cfg (.dir n a true ch) wd d =
      ⟨get_print_string_dir cfg wd a, d, true, false, wd⟩ ::
        ((if cfg.LIST_ALL = 2 then
            [⟨".", d + 1, true, false, wd⟩, ⟨"..", d + 1, true, false, wd⟩]
          else []) ++
         (if cfg.LIST_ALL = 0 then [⟨"..", d + 1, true, false, wd⟩] else [])) := by
  have hf : ch.filter (fun c => keptName cfg wd c.name && c.isfile) = [] := by
    rw [List.filter_eq_nil_iff]
    intro c hc
    simp [(hother c hc).1]
  have hd : ch.filter (fun c => keptName cfg wd c.name && c.isdir) = [] := by
    rw [List.filter_eq_nil_iff]
    intro c hc
    simp [(hother c hc).2]
  rw [print_tree_dir_eq cfg n a true ch wd d h1 h2, hf, hd]
  simp

theorem claim9_witness :
    (((0 : Nat) ≠ cfgHidden.MAX_DEPTH ∧ ¬(cfgHidden.NO_RECUR = true ∧ 0 < 0)) ∧
      (∀ c ∈ [FSNode.other "sock" sockAttrs], c.isfile = false ∧ c.isdir = false)) ∧
    print_tree cfgHidden (.dir "r" dirAttrs true [.other "sock" sockAttrs]) "/r" 0 =
      ⟨get_print_string_dir cfgHidden "/r" dirAttrs, 0, true, false, "/r"⟩ ::
        ((if cfgHidden.LIST_ALL = 2 then
            [⟨".", 0 + 1, true, false, "/r"⟩, ⟨"..", 0 + 1, true, false, "/r"⟩]
          else []) ++
         (if cfgHidden.LIST_ALL = 0 then [⟨"..", 0 + 1, true, false, "/r"⟩] else [])) :=
  ⟨⟨⟨by decide, by decide⟩, by decide⟩,
   claim9_other_entries cfgHidden "r" dirAttrs [.other "sock" sockAttrs] "/r" 0
     (by decide) (by decide) (by decide)⟩

/-- C10: the ignore rules (dotfile, backup suffix, gitignore oracle) apply
only to enumerated children, never to the traversal root itself: for every
root directory — whatever its name, whatever the oracle answers — the first
record of the walk is the root's own record (flagged exactly when the root
itself is unreadable). -/
theorem claim10_root_unfiltered (cfg : Config) (n : String) (a : Attributes) (rdable : Bool)
    (ch : List FSNode) (wd : String) (hmax : cfg.MAX_DEPTH ≠ 0) :
    (print_tree cfg (.dir n a rdable ch) wd 0).head? =
      some ⟨get_print_string_dir cfg wd a, 0, true, !rdable, wd⟩ := by
  rw [print_tree, if_neg (Ne.symm hmax),
    if_neg (show ¬(cfg.NO_RECUR = true ∧ 0 < 0) by simp)]
  cases rdable with
  | false => rfl
  | true => rfl

theorem claim10_witness :
    cfgHostile.MAX_DEPTH ≠ 0 ∧
    (print_tree cfgHostile (.dir ".bak~" dirAttrs true []) "/x/.bak~" 0).head? =
      some ⟨get_print_string_dir cfgHostile "/x/.bak~" dirAttrs, 0, true, !true, "/x/.bak~"⟩ ∧
    get_print_string_dir cfgHostile "/x/.bak~" dirAttrs = ".bak~" ∧
    cfgHostile.oracle "/x/.bak~" = true :=
  ⟨by decide,
   claim10_root_unfiltered cfgHostile ".bak~" dirAttrs true [] "/x/.bak~" (by decide),
   by decide, rfl⟩

/-- C7: for every configuration and every filesystem, the depth field of
every record of a root walk equals its structural nesting level (root
record 0, children of a directory record one more than it): the annotated
walk `record_levels` projects onto the real walk, and on it depth and
structural level coincide. -/
theorem claim7_depth_is_nesting (cfg : Config) (node : FSNode) (wd : String) :
    (record_levels cfg node wd 0 0).map Prod.fst = print_tree cfg node wd 0 ∧
    ∀ p ∈ record_levels cfg node wd 0 0, p.1.depth = p.2 :=
  ⟨record_levels_map_fst cfg node wd 0 0,
   fun p hp => by
    have h := depth_lvl_record_levels cfg node wd 0 0 p hp
    omega⟩

theorem claim7_witness :
    ((⟨"f", 2, false, false, "/r/sub/f"⟩, 2) : File × Nat) ∈
        record_levels cfgHidden fsSub "/r" 0 0 ∧
    ((⟨"f", 2, false, false, "/r/sub/f"⟩, 2) : File × Nat).1.depth =
      ((⟨"f", 2, false, false, "/r/sub/f"⟩, 2) : File × Nat).2 :=
  ⟨by decide, (claim7_depth_is_nesting cfgHidden fsSub "/r").2 _ (by decide)⟩

/-- C8: within the output of a single readable directory, the walk is its
own record, then the synthetic rows, then one record per surviving regular
file — in filesystem enumeration order — then the complete subtrees of the
surviving subdirectories, also in enumeration order, then the placeholder:
every file record of the directory precedes every record of any
subdirectory's subtree. -/
theorem claim8_files_before_subtrees (cfg : Config) (n : String) (a : Attributes)
    (ch : List FSNode) (wd : String) (d : Nat) (h1 : d ≠ cfg.MAX_DEPTH)
    (h2 : ¬(cfg.NO_RECUR = true ∧ 0 < d)) :
    print_tree cfg (.dir n a true ch) wd d =
      ⟨get_print_string_dir cfg wd a, d, true, false, wd⟩ ::
        ((if cfg.LIST_ALL = 2 then
            [⟨".", d + 1, true, false, wd⟩, ⟨"..", d + 1, true, false, wd⟩]
          else []) ++
         (ch.filter (fun c => keptName cfg wd c.name && c.isfile)).map (fun c =>
           ⟨get_print_string_file cfg (wd ++ "/" ++ c.name) c.attrs, d + 1, false, false,
            wd ++ "/" ++ c.name⟩) ++
         (ch.filter (fun c => keptName cfg wd c.name && c.isdir)).flatMap
           (fun c => print_tree cfg c (wd ++ "/" ++ c.name) (d + 1)) ++
         (if (ch.filter (fun c => keptName cfg wd c.name && c.isdir)).isEmpty ∧
             (ch.filter (fun c => keptName cfg wd c.name && c.isfile)).isEmpty ∧
             cfg.LIST_ALL = 0 then
            [⟨"..", d + 1, true, false, wd⟩]
          else [])) := by
  rw [print_tree_dir_eq cfg n a true ch wd d h1 h2]
  simp

theorem claim8_witness :
    ((0 : Nat) ≠ cfgHidden.MAX_DEPTH ∧ ¬(cfgHidden.NO_RECUR = true ∧ 0 < 0)) ∧
    print_tree cfgHidden (.dir "r" dirAttrs true
        [.dir "z" dirAttrs true [], .file "a" fileAttrs]) "/r" 0 =
      ⟨get_print_string_dir cfgHidden "/r" dirAttrs, 0, true, false, "/r"⟩ ::
        ((if cfgHidden.LIST_ALL = 2 then
            [⟨".", 0 + 1, true, false, "/r"⟩, ⟨"..", 0 + 1, true, false, "/r"⟩]
          else []) ++
         (([.dir "z" dirAttrs true [], .file "a" fileAttrs] : List FSNode).filter
             (fun c => keptName cfgHidden "/r" c.name && c.isfile)).map (fun c =>
           ⟨get_print_string_file cfgHidden ("/r" ++ "/" ++ c.name) c.attrs, 0 + 1, false, false,
            "/r" ++ "/" ++ c.name⟩) ++
         (([.dir "z" dirAttrs true [], .file "a" fileAttrs] : List FSNode).filter
             (fun c => keptName cfgHidden "/r" c.name && c.isdir)).flatMap
           (fun c => print_tree cfgHidden c ("/r" ++ "/" ++ c.name) (0 + 1)) ++
         (if (([.dir "z" dirAttrs true [], .file "a" fileAttrs] : List FSNode).filter
               (fun c => keptName cfgHidden "/r" c.name && c.isdir)).isEmpty ∧
             (([.dir "z" dirAttrs true [], .file "a" fileAttrs] : List FSNode).filter
               (fun c => keptName cfgHidden "/r" c.name && c.isfile)).isEmpty ∧
             cfgHidden.LIST_ALL = 0 then
            [⟨"..", 0 + 1, true, false, "/r"⟩]
          else [])) ∧
    print_tree cfgHidden fsMixed "/r" 0 =
      [⟨"r", 0, true, false, "/r"⟩, ⟨"a", 1, false, false, "/r/a"⟩,
       ⟨"z", 1, true, false, "/r/z"⟩, ⟨"..", 2, true, false, "/r/z"⟩] :=
  ⟨⟨by decide, by decide⟩,
   claim8_files_before_subtrees cfgHidden "r" dirAttrs
     [.dir "z" dirAttrs true [], .file "a" fileAttrs] "/r" 0 (by decide) (by decide),
   by decide⟩

/-- `String.data` distributes over `++` (definitionally). -/
theorem data_append (s t : String) : (s ++ t).data = s.data ++ t.data := rfl

/-- The indent prefix is three characters per open fold. -/
theorem indent_of_length (b : Bool) : ∀ n : Nat, (indent_of b n).data.length = 3 * n
  | 0 => rfl
  | 1 => by cases b <;> rfl
  | (n + 2) => by
    have ih := indent_of_length b (n + 1)
    show (("  " ++ Symbols.VLINE ++ indent_of b (n + 1)).data).length = 3 * (n + 2)
    rw [data_append, List.length_append, ih,
      show ("  " ++ Symbols.VLINE).data.length = 3 from rfl]
    omega

/-- Every column of the indent prefix carries exactly one rule character:
no column is ever blank. -/
theorem indent_of_nonblank (b : Bool) :
    ∀ n : Nat, ((indent_of b n).data.filter (fun c => c != ' ')).length = n
  | 0 => rfl
  | 1 => by cases b <;> rfl
  | (n + 2) => by
    have ih := indent_of_nonblank b (n + 1)
    show ((("  " ++ Symbols.VLINE ++ indent_of b (n + 1)).data).filter
        (fun c => c != ' ')).length = n + 2
    rw [data_append, List.filter_append, List.length_append, ih,
      show (("  " ++ Symbols.VLINE).data.filter (fun c => c != ' ')).length = 1 from rfl]
    omega

/-- C6, refuted as stated: render `/r` containing subdirectories `s1` and
`s2` (in that enumeration order), each holding a file `f`.  Per the claim,
the row of `f` under `s1` has ancestor columns root (last sibling: blank,
two characters) then `s1` (NOT the last sibling: a vertical glyph `v`), and
the row of `f` under `s2` has two blank ancestor columns, so for some
two-character `v ≠ "  "` and branch glyph `b` those rows would be
`"  " ++ v ++ b ++ "f"` and `"  " ++ "  " ++ b ++ "f"` — two different
strings.  The code renders both rows identically (`"  |  |-- f"`): no such
`v` and `b` exist. -/
theorem claim6_counterexample :
    prettify_lines cfgHidden (print_tree cfgHidden fsTwoSubs "/r" 0) [] =
      ["-- r", "  +-- s1", "  |  |-- f", "  |  +-- s2", "  |  |-- f"] ∧
    ¬ ∃ v b : String, v.data.length = 2 ∧ v ≠ "  " ∧
        "  " ++ v ++ b ++ "f" = "  |  |-- f" ∧
        "  " ++ "  " ++ b ++ "f" = "  |  |-- f" := by
  refine ⟨by decide, ?_⟩
  rintro ⟨v, b, hlen, hv, h3, h5⟩
  apply hv
  have h : ("  " ++ v ++ b ++ "f" : String) = "  " ++ "  " ++ b ++ "f" := h3.trans h5.symm
  have hd : "  ".data ++ v.data ++ b.data ++ "f".data =
      "  ".data ++ "  ".data ++ b.data ++ "f".data := congrArg String.data h
  have h7 := List.append_cancel_right (List.append_cancel_right hd)
  have h9 := List.append_cancel_left h7
  exact congrArg String.mk h9

/-- C6 (amended): the indentation prefix consists of one column per OPEN
FOLD of the prettifier state — the state never tracks sibling positions,
and the rendered line is a function of the number of open folds together
with the record's own directory flag, name and permission flag alone.
Each column is three characters wide (two blanks and one rule character,
so never blank); the innermost column's rule is a cross exactly when the
record is a directory, and the entry's own marker is two hyphens and a
blank. -/
theorem claim6_indent_shape (cfg : Config) (st : File) (folds : List Nat) :
    (prettify_step cfg st folds).1 =
      (if st.permission_failure then
        indent_of st.directory folds.length ++ Symbols.HLINE ++ Symbols.HLINE ++ " " ++
          st.name ++ " " ++ cfg.colors.BOLD ++ cfg.colors.FAIL ++ "[PermissionDenied]" ++
          cfg.colors.ENDC
      else
        indent_of st.directory folds.length ++ Symbols.HLINE ++ Symbols.HLINE ++ " " ++
          st.name) ∧
    (indent_of st.directory folds.length).data.length = 3 * folds.length ∧
    ((indent_of st.directory folds.length).data.filter (fun c => c != ' ')).length =
      folds.length :=
  ⟨by cases h : st.permission_failure <;> simp [prettify_step, h],
   indent_of_length st.directory folds.length,
   indent_of_nonblank st.directory folds.length⟩

/-- C5, refuted as stated: the synthetic `..` placeholder record of the
empty directory `/r` carries `/r` itself as its backing path (the `path`
field of every synthetic row is the enclosing directory's `wd`, never
absent), and its long-list row shows `/r`'s own metadata — mode
`drwxr-xr-x`, 2 links, owner 1000, group 1000, 4096 bytes, epoch timestamp
— not blank columns: its first eleven characters are not blanks. -/
theorem claim5_counterexample :
    print_tree cfgHidden fsEmpty "/r" 0 =
      [⟨"r", 0, true, false, "/r"⟩, ⟨"..", 1, true, false, "/r"⟩] ∧
    print_long_list_fmt cfgHidden fsEmpty "/r" (print_tree cfgHidden fsEmpty "/r" 0) =
      some ["drwxr-xr-x  2   1000  1000  4096B      Jan 01 1970 00:00 -- r",
            "drwxr-xr-x  2   1000  1000  4096B      Jan 01 1970 00:00   +-- .."] ∧
    ("drwxr-xr-x  2   1000  1000  4096B      Jan 01 1970 00:00   +-- ..").data.take 11 ≠
      List.replicate 11 ' ' := by
  refine ⟨by decide, by decide, by decide⟩

/-- C5 (amended): synthetic records are not path-less: the ShowAll `.` and
`..` rows (and likewise the empty-directory placeholder) carry the
enclosing directory's path in their `path` field; that path resolves to the
directory itself, so the long-list renderer renders every such row with the
enclosing DIRECTORY's metadata columns (mode, link count, owner, group,
size, timestamp) — not with blank columns. -/
theorem claim5_synthetic_rows (cfg : Config) (n : String) (a : Attributes) (ch : List FSNode)
    (wd : String) (d : Nat) (h1 : d ≠ cfg.MAX_DEPTH) (h2 : ¬(cfg.NO_RECUR = true ∧ 0 < d))
    (hall : cfg.LIST_ALL = 2) :
    (∃ rest, print_tree cfg (.dir n a true ch) wd d =
        ⟨get_print_string_dir cfg wd a, d, true, false, wd⟩ ::
          ⟨".", d + 1, true, false, wd⟩ :: ⟨"..", d + 1, true, false, wd⟩ :: rest) ∧
    get_attributes (.dir n a true ch) wd wd = some a ∧
    (∀ (st : File) (rest : List File) (folds : List Nat), st.path = wd →
      print_long_list_go cfg (.dir n a true ch) wd (st :: rest) folds =
        Option.map (fun ls => long_list_line cfg a (prettify_step cfg st folds).1 :: ls)
          (print_long_list_go cfg (.dir n a true ch) wd rest (prettify_step cfg st folds).2)) := by
  have hwd : get_attributes (.dir n a true ch) wd wd = some a := by
    simp [get_attributes, path_segs, find_node, FSNode.attrs]
  refine ⟨?_, hwd, ?_⟩
  · rw [print_tree_dir_eq cfg n a true ch wd d h1 h2]
    exact ⟨_, by simp [hall]; rfl⟩
  · intro st rest folds hpath
    simp only [print_long_list_go, hpath, hwd]
    cases hres : print_long_list_go cfg (.dir n a true ch) wd rest
        (prettify_step cfg st folds).2 with
    | none => simp [hres]
    | some ls => simp [hres]

theorem claim5_witness :
    ((0 : Nat) ≠ cfgShowAll.MAX_DEPTH ∧ ¬(cfgShowAll.NO_RECUR = true ∧ 0 < 0) ∧
      cfgShowAll.LIST_ALL = 2) ∧
    get_attributes (.dir "r" dirAttrs true []) "/r" "/r" = some dirAttrs :=
  ⟨⟨by decide, by decide, rfl⟩,
   (claim5_synthetic_rows cfgShowAll "r" dirAttrs [] "/r" 0 (by decide) (by decide)
     rfl).2.1⟩

end ListTree
